import Mathlib

/-!
Shallow embedding of the spaced-repetition core (src/src/spaced-core.ts) over the
D1/SQLite schema (schema.sql).  The database is a record of row lists; each
operation of the `SpacedRepetition` class becomes a Lean function threading the
database state.  The external ts-fsrs scheduler is an abstract parameter
(`Scheduler`), since it is a third-party dependency, not repository code.
Timestamps are integers (milliseconds); `stability`, `difficulty` and
retrievability are rationals.
-/

namespace SpacedMcp

abbrev Tenant := String
abbrev CardId := Nat

/-- Tag labels are kept as character lists so that the JS `trim` boundary
whitespace handling is explicit and provable. -/
abbrev TagLabel := List Char

def isWs (c : Char) : Bool := c.isWhitespace

/-- JS `String.prototype.trim`: strip whitespace from both ends. -/
def jsTrim (s : TagLabel) : TagLabel :=
  ((s.dropWhile isWs).reverse.dropWhile isWs).reverse

/-- The ten FSRS columns of the `reviews` / `review_history` tables
(state 0=New, 1=Learning, 2=Review, 3=Relearning). -/
structure FsrsFields where
  state : Nat
  due : Int
  stability : Rat
  difficulty : Rat
  elapsed_days : Int
  scheduled_days : Int
  learning_steps : Int
  reps : Int
  lapses : Int
  last_review : Option Int
deriving DecidableEq, Repr

/-- A row of the `cards` table. -/
structure CardRow where
  id : CardId
  user_id : Tenant
  instructions : String
  created_at : Int
deriving DecidableEq, Repr

/-- A row of the `tags` table. -/
structure TagRow where
  card_id : CardId
  user_id : Tenant
  tag : TagLabel
deriving DecidableEq, Repr

/-- A row of the `reviews` table (current schedule state, keyed by card_id). -/
structure ReviewRow where
  card_id : CardId
  user_id : Tenant
  fsrs : FsrsFields
deriving DecidableEq, Repr

/-- A row of the `review_history` table (pre-review snapshots). -/
structure HistRow where
  id : Nat
  card_id : CardId
  user_id : Tenant
  fsrs : FsrsFields
  created_at : Int
deriving DecidableEq, Repr

/-- The database state.  `nextCardId` / `nextHistId` model the AUTOINCREMENT
row-id counters (`last_row_id`). -/
structure Db where
  cards : List CardRow
  tags : List TagRow
  reviews : List ReviewRow
  review_history : List HistRow
  nextCardId : CardId
  nextHistId : Nat
deriving DecidableEq, Repr

/-- The ts-fsrs scheduler (external library): `next` is `scheduler.next(card, now,
rating).card`, `retr` is `scheduler.get_retrievability(card, now, false)`. -/
structure Scheduler where
  next : FsrsFields → Int → Nat → FsrsFields
  retr : FsrsFields → Int → Rat

/-- ts-fsrs `createEmptyCard()`: phase New, numeric fields zeroed, due = now,
never reviewed. -/
def createEmptyCard (now : Int) : FsrsFields :=
  { state := 0, due := now, stability := 0, difficulty := 0, elapsed_days := 0,
    scheduled_days := 0, learning_steps := 0, reps := 0, lapses := 0,
    last_review := none }

def msPerDay : Int := 86400000

/-- JS `Math.round(num / den)` for a positive denominator, in exact integer
arithmetic: round half up, floor(num/den + 1/2) = floor((2*num + den) / (2*den)). -/
def jsRoundDiv (num den : Int) : Int := (2 * num + den).fdiv (2 * den)

/-- Calendar day of a timestamp (days since epoch); stands in for the source's
date-only projections (SQL `DATE(created_at)`, JS `setHours(0,0,0,0)` /
`toISOString().split("T")[0]`). -/
def dayOf (t : Int) : Int := t.fdiv msPerDay

/-- The human-relative due label computed by `formatCardRow`. -/
inductive DueLabel
  | today
  | tomorrow
  | onDate (day : Int)
deriving DecidableEq, Repr

/-- The `CardData` shape returned to callers. -/
structure CardData where
  id : CardId
  instructions : String
  tags : List TagLabel
  due : DueLabel
deriving DecidableEq, Repr

def formatDue (now due : Int) : DueLabel :=
  if dayOf due = dayOf now then .today
  else if dayOf due = dayOf now + 1 then .tomorrow
  else .onDate (dayOf due)

/-- The tags of a card for this tenant (the `GROUP_CONCAT(t.tag)` column; the
source returns it comma-joined and re-split, we keep the list). -/
def tagsOf (uid : Tenant) (cid : CardId) (db : Db) : List TagLabel :=
  (db.tags.filter (fun t => t.card_id == cid && t.user_id == uid)).map (·.tag)

/-- `formatCardRow`. -/
def formatCardRow (uid : Tenant) (now : Int) (db : Db) (c : CardRow)
    (f : FsrsFields) : CardData :=
  { id := c.id, instructions := c.instructions, tags := tagsOf uid c.id db,
    due := formatDue now f.due }

/-- The `JOIN reviews r ON c.id = r.card_id` direction of the query joins
(`reviews` is keyed by card_id). -/
def findReview (db : Db) (cid : CardId) : Option ReviewRow :=
  db.reviews.find? (fun r => r.card_id == cid)

/-- `SELECT ... FROM reviews WHERE card_id = ? AND user_id = ?`. -/
def findReviewFor (db : Db) (uid : Tenant) (cid : CardId) : Option ReviewRow :=
  db.reviews.find? (fun r => r.card_id == cid && r.user_id == uid)

/-- The optional tag-membership condition
`c.id IN (SELECT card_id FROM tags WHERE user_id = ? AND tag IN (...))`,
appended only when the filter list is non-empty (OR semantics across tags). -/
def tagFilterOk (uid : Tenant) (tagF : List TagLabel) (cid : CardId) (db : Db) : Bool :=
  tagF.isEmpty || db.tags.any (fun t => t.card_id == cid && t.user_id == uid
    && tagF.contains t.tag)

/-- addCard step 1: `INSERT INTO cards (user_id, instructions)`; the new id is
`last_row_id`, `created_at` defaults to the current time. -/
def addCardInsertCard (uid : Tenant) (now : Int) (instr : String) (db : Db) :
    CardId × Db :=
  (db.nextCardId,
   { db with cards := db.cards ++ [⟨db.nextCardId, uid, instr, now⟩],
             nextCardId := db.nextCardId + 1 })

/-- addCard step 2 (also used by editCard): insert
`tags.filter((tag) => tag.trim()).map((tag) => INSERT ... tag.trim())`
(whitespace-only tags are dropped, kept tags are trimmed; inserting an empty
list is a no-op, matching the `tags.length > 0` guard). -/
def insertTags (uid : Tenant) (cid : CardId) (tagList : List TagLabel) (db : Db) : Db :=
  { db with tags := db.tags ++
      ((tagList.filter (fun t => !(jsTrim t).isEmpty)).map
        (fun t => ⟨cid, uid, jsTrim t⟩)) }

/-- addCard step 3: `INSERT INTO reviews` of the initial FSRS state. -/
def insertInitialReview (uid : Tenant) (cid : CardId) (now : Int) (db : Db) : Db :=
  { db with reviews := db.reviews ++ [⟨cid, uid, createEmptyCard now⟩] }

/-- `addCard(instructions, tags)`: three separate statements, no transaction. -/
def addCard (uid : Tenant) (now : Int) (instr : String) (tagList : List TagLabel)
    (db : Db) : CardId × Db :=
  let step1 := addCardInsertCard uid now instr db
  let db2 := insertTags uid step1.1 tagList step1.2
  (step1.1, insertInitialReview uid step1.1 now db2)

/-- Modelled from the spec: the `review_history` table's CREATE TABLE is not
under src/ (schema.sql only defines cards/tags/reviews); spec §6 requires
"referential cascade-on-delete from card to its tags/schedule-state/history",
so deleting a card id removes its history snapshots. -/
def cascadeHistory (cid : CardId) (hist : List HistRow) : List HistRow :=
  hist.filter (fun h => h.card_id != cid)

/-- `deleteCard`: `DELETE FROM cards WHERE id = ? AND user_id = ?`, the schema's
`ON DELETE CASCADE` removing the deleted card's tags and reviews rows (plus the
spec-modelled history cascade); returns `meta.changes > 0`. -/
def deleteCard (uid : Tenant) (cid : CardId) (db : Db) : Bool × Db :=
  if db.cards.any (fun c => c.id == cid && c.user_id == uid) then
    (true,
     { db with cards := db.cards.filter (fun c => !(c.id == cid && c.user_id == uid)),
               tags := db.tags.filter (fun t => t.card_id != cid),
               reviews := db.reviews.filter (fun r => r.card_id != cid),
               review_history := cascadeHistory cid db.review_history })
  else (false, db)

/-- `editCard(cardId, instructions?, tags?)`: existence check, optional
instructions UPDATE, optional full tag replacement (DELETE then re-insert via
the same trim/filter pipeline as addCard). -/
def editCard (uid : Tenant) (cid : CardId) (instr : Option String)
    (tagList : Option (List TagLabel)) (db : Db) : Bool × Db :=
  if db.cards.any (fun c => c.id == cid && c.user_id == uid) then
    let db1 := match instr with
      | none => db
      | some s =>
        { db with cards := db.cards.map (fun c =>
            if c.id == cid && c.user_id == uid then { c with instructions := s } else c) }
    let db2 := match tagList with
      | none => db1
      | some ts =>
        insertTags uid cid ts
          { db1 with tags := db1.tags.filter (fun t => !(t.card_id == cid && t.user_id == uid)) }
    (true, db2)
  else (false, db)

/-- The result shape of `submitReview` (`next_review` is the new due timestamp,
the source serializes its date part). -/
structure ReviewResult where
  next_review : Int
  interval : Int
deriving DecidableEq, Repr

/-- submitReview step 2: `INSERT INTO review_history` of the pre-review state
(`created_at` = now). -/
def insertHistory (uid : Tenant) (cid : CardId) (now : Int) (f : FsrsFields)
    (db : Db) : Db :=
  { db with review_history := db.review_history ++ [⟨db.nextHistId, cid, uid, f, now⟩],
            nextHistId := db.nextHistId + 1 }

/-- `UPDATE reviews SET ... WHERE card_id = ? AND user_id = ?`. -/
def updateReviewRow (uid : Tenant) (cid : CardId) (f : FsrsFields) (db : Db) : Db :=
  { db with reviews := db.reviews.map (fun r =>
      if r.card_id == cid && r.user_id == uid then { r with fsrs := f } else r) }

/-- `submitReview(cardId, rating)`: load, snapshot, schedule, update. -/
def submitReview (S : Scheduler) (uid : Tenant) (now : Int) (cid : CardId)
    (rating : Nat) (db : Db) : Except String (ReviewResult × Db) :=
  match findReviewFor db uid cid with
  | none => .error ("Card " ++ toString cid ++ " not found")
  | some r =>
    let db1 := insertHistory uid cid now r.fsrs db
    let f2 := S.next r.fsrs now rating
    let interval := jsRoundDiv (f2.due - now) msPerDay
    (.ok ({ next_review := f2.due, interval := interval }, updateReviewRow uid cid f2 db1))

/-- The committed state if execution stops after submitReview's history INSERT
but before the reviews UPDATE: the two statements are separate D1 calls with no
enclosing transaction, and each statement commits on its own. -/
def submitReviewInterrupted (uid : Tenant) (now : Int) (cid : CardId) (db : Db) :
    Option Db :=
  (findReviewFor db uid cid).map (fun r => insertHistory uid cid now r.fsrs db)

/-- One step of scanning for the most recent matching snapshot. -/
def latestStep (uid : Tenant) (cid : CardId) (acc : Option HistRow) (h : HistRow) :
    Option HistRow :=
  if h.card_id == cid && h.user_id == uid then
    match acc with
    | none => some h
    | some a => if a.created_at ≤ h.created_at then some h else some a
  else acc

/-- undoReview's `SELECT ... FROM review_history WHERE card_id = ? AND user_id = ?
ORDER BY created_at DESC LIMIT 1`; rows inserted later win created_at ties. -/
def latestHistory (uid : Tenant) (cid : CardId) (db : Db) : Option HistRow :=
  db.review_history.foldl (latestStep uid cid) none

/-- `undoReview(cardId)`: restore the most recent snapshot as the current state
and delete it (`DELETE FROM review_history WHERE id = ?`). -/
def undoReview (uid : Tenant) (cid : CardId) (db : Db) : Bool × Db :=
  match latestHistory uid cid db with
  | none => (false, db)
  | some h =>
    let db1 := updateReviewRow uid cid h.fsrs db
    (true, { db1 with review_history := db1.review_history.filter (fun x => x.id != h.id) })

/-- The row set of `getDueCards`' SQL query: tenant's cards joined with their
current state, kept when `datetime(r.due) <= datetime('now')` and the optional
tag filter holds. -/
def dueRows (uid : Tenant) (now : Int) (tagF : List TagLabel) (db : Db) :
    List (CardRow × FsrsFields) :=
  db.cards.filterMap (fun c =>
    match findReview db c.id with
    | some r =>
      if c.user_id == uid && decide (r.fsrs.due ≤ now) && tagFilterOk uid tagF c.id db
      then some (c, r.fsrs) else none
    | none => none)

/-- getDueCards' comparator `(a, b) => b.retrievability - a.retrievability`:
descending retrievability (highest first). -/
def retrDesc (S : Scheduler) (now : Int) :
    CardRow × FsrsFields → CardRow × FsrsFields → Prop :=
  fun a b => S.retr b.2 now ≤ S.retr a.2 now

instance (S : Scheduler) (now : Int) : DecidableRel (retrDesc S now) :=
  fun a b => inferInstanceAs (Decidable (S.retr b.2 now ≤ S.retr a.2 now))

/-- The due rows after the sort and the `limit ? slice(0, limit) : all`
truncation (a stable sort, as JS `Array.prototype.sort`; a zero limit is falsy
and disables truncation). -/
def getDueCardsRanked (S : Scheduler) (uid : Tenant) (now : Int)
    (limit : Option Nat) (tagF : List TagLabel) (db : Db) :
    List (CardRow × FsrsFields) :=
  let ranked := List.insertionSort (retrDesc S now) (dueRows uid now tagF db)
  match limit with
  | none => ranked
  | some n => if n = 0 then ranked else ranked.take n

/-- `getDueCards(limit?, tags)`. -/
def getDueCards (S : Scheduler) (uid : Tenant) (now : Int) (limit : Option Nat)
    (tagF : List TagLabel) (db : Db) : List CardData :=
  (getDueCardsRanked S uid now limit tagF db).map
    (fun p => formatCardRow uid now db p.1 p.2)

/-- `ORDER BY c.created_at DESC` of getAllCards / searchCards. -/
def createdDesc : CardRow × FsrsFields → CardRow × FsrsFields → Prop :=
  fun a b => b.1.created_at ≤ a.1.created_at

instance : DecidableRel createdDesc :=
  fun a b => inferInstanceAs (Decidable (b.1.created_at ≤ a.1.created_at))

/-- The row set of `getAllCards`' SQL query. -/
def allRows (uid : Tenant) (tagF : List TagLabel) (db : Db) :
    List (CardRow × FsrsFields) :=
  db.cards.filterMap (fun c =>
    match findReview db c.id with
    | some r =>
      if c.user_id == uid && tagFilterOk uid tagF c.id db then some (c, r.fsrs) else none
    | none => none)

/-- `getAllCards(tags)`. -/
def getAllCards (uid : Tenant) (now : Int) (tagF : List TagLabel) (db : Db) :
    List CardData :=
  (List.insertionSort createdDesc (allRows uid tagF db)).map
    (fun p => formatCardRow uid now db p.1 p.2)

/-- The row set of `searchCards`' SQL query.  `fts` abstracts the FTS5 `MATCH`
predicate on card instructions (the `cards_fts` virtual table is kept in sync
with `cards` by the schema's triggers); an empty query takes the plain path. -/
def searchRows (fts : String → String → Bool) (uid : Tenant) (query : String)
    (tagF : List TagLabel) (db : Db) : List (CardRow × FsrsFields) :=
  db.cards.filterMap (fun c =>
    match findReview db c.id with
    | some r =>
      if (query == "" || fts query c.instructions) && c.user_id == uid
          && tagFilterOk uid tagF c.id db
      then some (c, r.fsrs) else none
    | none => none)

/-- `searchCards(query, tags)`. -/
def searchCards (fts : String → String → Bool) (uid : Tenant) (now : Int)
    (query : String) (tagF : List TagLabel) (db : Db) : List CardData :=
  (List.insertionSort createdDesc (searchRows fts uid query tagF db)).map
    (fun p => formatCardRow uid now db p.1 p.2)

/-- An element of the `reviews` argument of `submitBatchReviews`. -/
structure BatchReviewInput where
  card_id : CardId
  rating : Nat
deriving DecidableEq, Repr

/-- A `successful` entry of `submitBatchReviews`. -/
structure BatchReviewSuccess where
  card_id : CardId
  next_review : Int
  interval : Int
deriving DecidableEq, Repr

/-- A `failed` entry carrying the per-item error text. -/
structure BatchFailure where
  card_id : CardId
  error : String
deriving DecidableEq, Repr

/-- `submitBatchReviews`: each item goes through `submitReview` inside its own
try/catch; an error is recorded in `failed` and the loop continues. -/
def submitBatchReviews (S : Scheduler) (uid : Tenant) (now : Int) :
    List BatchReviewInput → Db → List BatchReviewSuccess × List BatchFailure × Db
  | [], db => ([], [], db)
  | i :: rest, db =>
    match submitReview S uid now i.card_id i.rating db with
    | .ok (r, db1) =>
      let out := submitBatchReviews S uid now rest db1
      (⟨i.card_id, r.next_review, r.interval⟩ :: out.1, out.2.1, out.2.2)
    | .error e =>
      let out := submitBatchReviews S uid now rest db
      (out.1, ⟨i.card_id, e⟩ :: out.2.1, out.2.2)

/-- `deleteCardsInBatch`: a false `deleteCard` result becomes a
`'Card not found'` failure; successes record the card id. -/
def deleteCardsInBatch (uid : Tenant) :
    List CardId → Db → List CardId × List BatchFailure × Db
  | [], db => ([], [], db)
  | cid :: rest, db =>
    let step := deleteCard uid cid db
    let out := deleteCardsInBatch uid rest step.2
    if step.1 then (cid :: out.1, out.2.1, out.2.2)
    else (out.1, ⟨cid, "Card not found"⟩ :: out.2.1, out.2.2)

/-- An element of the `edits` argument of `editCardsInBatch`. -/
structure BatchEditInput where
  card_id : CardId
  instructions : Option String
  tags : Option (List TagLabel)
deriving DecidableEq, Repr

/-- `editCardsInBatch`. -/
def editCardsInBatch (uid : Tenant) :
    List BatchEditInput → Db → List CardId × List BatchFailure × Db
  | [], db => ([], [], db)
  | e :: rest, db =>
    let step := editCard uid e.card_id e.instructions e.tags db
    let out := editCardsInBatch uid rest step.2
    if step.1 then (e.card_id :: out.1, out.2.1, out.2.2)
    else (out.1, ⟨e.card_id, "Card not found"⟩ :: out.2.1, out.2.2)

/-- `undoReviewsInBatch`: a false `undoReview` result becomes a
`'No review history found'` failure. -/
def undoReviewsInBatch (uid : Tenant) :
    List CardId → Db → List CardId × List BatchFailure × Db
  | [], db => ([], [], db)
  | cid :: rest, db =>
    let step := undoReview uid cid db
    let out := undoReviewsInBatch uid rest step.2
    if step.1 then (cid :: out.1, out.2.1, out.2.2)
    else (out.1, ⟨cid, "No review history found"⟩ :: out.2.1, out.2.2)

/-- An element of the `searches` argument of `searchCardsInBatch`
(`tags` is optional and defaults to the empty filter). -/
structure BatchSearchInput where
  query : String
  tags : Option (List TagLabel)
deriving DecidableEq, Repr

/-- A `successful` entry of `searchCardsInBatch`. -/
structure BatchSearchSuccess where
  query : String
  cards : List CardData
deriving DecidableEq, Repr

/-- A `failed` entry of `searchCardsInBatch` (identified by query). -/
structure BatchQueryFailure where
  query : String
  error : String
deriving DecidableEq, Repr

/-- `searchCardsInBatch`: `searchCards` is a read-only query and, in this
embedding, never fails, so every item lands in `successful`. -/
def searchCardsInBatch (fts : String → String → Bool) (uid : Tenant) (now : Int) :
    List BatchSearchInput → Db → List BatchSearchSuccess × List BatchQueryFailure
  | [], _ => ([], [])
  | s :: rest, db =>
    let cards := searchCards fts uid now s.query (s.tags.getD []) db
    let out := searchCardsInBatch fts uid now rest db
    (⟨s.query, cards⟩ :: out.1, out.2)

/-- The body of getCurrentStreak's counting loop: walk the distinct review-day
list, incrementing while each day matches the expected day (which then steps one
day back), stopping at the first mismatch. -/
def streakLoop : List Int → Int → Nat → Nat
  | [], _, streak => streak
  | d :: rest, expected, streak =>
    if d = expected then streakLoop rest (expected - 1) (streak + 1) else streak

/-- `getCurrentStreak` over the distinct review days sorted descending: 0 when
the most recent day is neither today nor yesterday, else the consecutive-day
count starting from today (or yesterday when today has no entry). -/
def getCurrentStreak (dates : List Int) (today : Int) : Nat :=
  match dates with
  | [] => 0
  | d0 :: _ =>
    if d0 ≠ today ∧ d0 ≠ today - 1 then 0
    else streakLoop dates (if d0 = today then today else today - 1) 0

/-- `SELECT DISTINCT DATE(created_at) ... ORDER BY review_date DESC`:
sort descending, drop adjacent duplicates. -/
def dedupSorted : List Int → List Int
  | [] => []
  | [a] => [a]
  | a :: b :: rest =>
    if a = b then dedupSorted (b :: rest) else a :: dedupSorted (b :: rest)

def intDesc : Int → Int → Prop := fun a b => b ≤ a

instance : DecidableRel intDesc := fun a b => inferInstanceAs (Decidable (b ≤ a))

/-- The tenant's distinct review days, most recent first. -/
def reviewDates (uid : Tenant) (db : Db) : List Int :=
  dedupSorted (List.insertionSort intDesc
    ((db.review_history.filter (fun h => h.user_id == uid)).map
      (fun h => dayOf h.created_at)))

/-- The `current_streak` statistic for a tenant. -/
def currentStreakOf (uid : Tenant) (today : Int) (db : Db) : Nat :=
  getCurrentStreak (reviewDates uid db) today

/-- Well-formedness of a database state, maintained by every operation:
card ids are unique, the current state is keyed by card id, and every
state/snapshot row belongs to an existing card of the same tenant; history ids
stay below the id counter. -/
def Db.Wf (db : Db) : Prop :=
  db.cards.Pairwise (fun a b => a.id ≠ b.id) ∧
  db.reviews.Pairwise (fun a b => a.card_id ≠ b.card_id) ∧
  (∀ r ∈ db.reviews, ∃ c ∈ db.cards, c.id = r.card_id ∧ c.user_id = r.user_id) ∧
  (∀ h ∈ db.review_history, ∃ c ∈ db.cards, c.id = h.card_id ∧ c.user_id = h.user_id) ∧
  (∀ h ∈ db.review_history, h.id < db.nextHistId)

instance (db : Db) : Decidable db.Wf := by
  unfold Db.Wf
  infer_instance

/-! ## Concrete instances used by witnesses and counterexamples -/

/-- A concrete stand-in for the abstract ts-fsrs scheduler: reviewing moves the
card to phase Review one day ahead and bumps `reps`; retrievability reads the
stored stability (a rational in [0, 1] in the instances below). -/
def testSched : Scheduler where
  next f now _ :=
    { f with state := 2, due := now + msPerDay, reps := f.reps + 1, last_review := some now }
  retr f _ := f.stability

def emptyDb : Db := ⟨[], [], [], [], 1, 1⟩

/-- An initial state whose stability field carries a chosen retrievability. -/
def fStab (s : Rat) : FsrsFields := { createEmptyCard 0 with stability := s }

/-- Three due cards of tenant "u" with retrievabilities 0.9, 0.5, 0.2. -/
def exDb3 : Db :=
  { cards := [⟨1, "u", "a", 0⟩, ⟨2, "u", "b", 0⟩, ⟨3, "u", "c", 0⟩],
    tags := [],
    reviews := [⟨1, "u", fStab (mkRat 9 10)⟩, ⟨2, "u", fStab (mkRat 1 2)⟩,
                ⟨3, "u", fStab (mkRat 1 5)⟩],
    review_history := [], nextCardId := 4, nextHistId := 1 }

/-- A single never-reviewed card of tenant "u". -/
def oneCardDb : Db :=
  { cards := [⟨1, "u", "x", 0⟩], tags := [],
    reviews := [⟨1, "u", createEmptyCard 0⟩],
    review_history := [], nextCardId := 2, nextHistId := 1 }

/-- `oneCardDb` with one earlier (never undone) history snapshot. -/
def priorHistDb : Db :=
  { oneCardDb with review_history := [⟨1, 1, "u", fStab 1, 5⟩], nextHistId := 2 }

/-- One card per tenant "a" and "b", identical instructions. -/
def twoTenantDb : Db :=
  { cards := [⟨1, "a", "s", 0⟩, ⟨2, "b", "s", 0⟩], tags := [],
    reviews := [⟨1, "a", createEmptyCard 0⟩, ⟨2, "b", createEmptyCard 0⟩],
    review_history := [], nextCardId := 3, nextHistId := 1 }

/-- Tenant "u" reviewed on calendar days 8 and 9 (and not since). -/
def streakDb : Db :=
  { cards := [⟨1, "u", "x", 0⟩], tags := [],
    reviews := [⟨1, "u", createEmptyCard 0⟩],
    review_history := [⟨1, 1, "u", createEmptyCard 0, 9 * 86400000⟩,
                       ⟨2, 1, "u", createEmptyCard 0, 8 * 86400000⟩],
    nextCardId := 2, nextHistId := 3 }

/-- The state `testSched` produces for `oneCardDb`'s card when reviewed at
time 7. -/
def c3f2 : FsrsFields :=
  { createEmptyCard 0 with state := 2, due := 86400007, reps := 1, last_review := some 7 }

/-- The database `submitReview testSched "u" 7 1 3 oneCardDb` produces. -/
def c3Db1 : Db :=
  { cards := [⟨1, "u", "x", 0⟩], tags := [],
    reviews := [⟨1, "u", c3f2⟩],
    review_history := [⟨1, 1, "u", createEmptyCard 0, 7⟩],
    nextCardId := 2, nextHistId := 2 }

/-- A stored tag label is well-formed when it is non-empty and carries no
leading or trailing whitespace (trimming it changes nothing). -/
def goodTag (t : TagLabel) : Prop := t ≠ [] ∧ jsTrim t = t

/-- The tag-table invariant: every stored tag label is well-formed. -/
def TagInv (db : Db) : Prop := ∀ tr ∈ db.tags, goodTag tr.tag

instance (db : Db) : Decidable (TagInv db) := by
  unfold TagInv goodTag
  infer_instance

/-- The run of expected days counted by the streak loop: e, e-1, ..., e-n+1. -/
def backRun (e : Int) : Nat → List Int
  | 0 => []
  | n + 1 => e :: backRun (e - 1) n

/-! ## Helper lemmas -/

/-- In a list whose entries have pairwise-distinct keys, two members with the
same key are the same entry. -/
theorem pairwise_key_eq {α κ : Type} (key : α → κ) {l : List α}
    (h : l.Pairwise (fun a b => key a ≠ key b)) {a b : α}
    (ha : a ∈ l) (hb : b ∈ l) (hk : key a = key b) : a = b := by
  induction l with
  | nil => cases ha
  | cons x xs ih =>
    rcases List.pairwise_cons.mp h with ⟨hx, hxs⟩
    rcases List.mem_cons.mp ha with rfl | ha2
    · rcases List.mem_cons.mp hb with rfl | hb2
      · rfl
      · exact absurd hk (hx _ hb2)
    · rcases List.mem_cons.mp hb with rfl | hb2
      · exact absurd hk.symm (hx _ ha2)
      · exact ih hxs ha2 hb2

theorem map_eq_self_of {α : Type} {f : α → α} {l : List α}
    (h : ∀ a ∈ l, f a = a) : l.map f = l := by
  induction l with
  | nil => rfl
  | cons x xs ih =>
    simp only [List.map_cons, h x (List.mem_cons_self x xs),
      ih (fun a ha => h a (List.mem_cons_of_mem x ha))]

/-- The existence test shared by deleteCard / editCard is false exactly when the
tenant has no card with that id. -/
theorem cards_any_eq_false {db : Db} {uid : Tenant} {cid : CardId} :
    db.cards.any (fun c => c.id == cid && c.user_id == uid) = false ↔
      ∀ c ∈ db.cards, ¬(c.id = cid ∧ c.user_id = uid) := by
  rw [← Bool.not_eq_true, List.any_eq_true]
  simp [not_exists]

theorem findReviewFor_eq_none {db : Db} {uid : Tenant} {cid : CardId}
    (hwf : db.Wf) (habs : ∀ c ∈ db.cards, ¬(c.id = cid ∧ c.user_id = uid)) :
    findReviewFor db uid cid = none := by
  rw [findReviewFor, List.find?_eq_none]
  intro r hr hpred
  rw [Bool.and_eq_true, beq_iff_eq, beq_iff_eq] at hpred
  obtain ⟨c, hc, hcid, hcuser⟩ := hwf.2.2.1 r hr
  exact habs c hc ⟨hcid.trans hpred.1, hcuser.trans hpred.2⟩

/-- Rows that do not match the (tenant, card) pair do not change the scan. -/
theorem latestStep_skip {uid : Tenant} {cid : CardId} {h : HistRow}
    (hx : ¬(h.card_id = cid ∧ h.user_id = uid)) (acc : Option HistRow) :
    latestStep uid cid acc h = acc := by
  have hxb : (h.card_id == cid && h.user_id == uid) = false := by
    by_cases h1 : h.card_id = cid
    · have h2 : h.user_id ≠ uid := fun h2 => hx ⟨h1, h2⟩
      simp [h1, h2]
    · simp [h1]
  simp [latestStep, hxb]

theorem latestFold_eq_none {uid : Tenant} {cid : CardId} {l : List HistRow}
    (habs : ∀ h ∈ l, ¬(h.card_id = cid ∧ h.user_id = uid)) :
    l.foldl (latestStep uid cid) none = none := by
  induction l with
  | nil => rfl
  | cons x xs ih =>
    rw [List.foldl_cons, latestStep_skip (habs x (List.mem_cons_self x xs))]
    exact ih (fun h hh => habs h (List.mem_cons_of_mem x hh))

/-- If no history row matches the (tenant, card) pair, the latest-snapshot query
returns nothing. -/
theorem latestHistory_eq_none {db : Db} {uid : Tenant} {cid : CardId}
    (habs : ∀ h ∈ db.review_history, ¬(h.card_id = cid ∧ h.user_id = uid)) :
    latestHistory uid cid db = none :=
  latestFold_eq_none habs

/-- Characterization of the rows of `getDueCards`' query. -/
theorem mem_dueRows {uid : Tenant} {now : Int} {tagF : List TagLabel} {db : Db}
    {p : CardRow × FsrsFields} :
    p ∈ dueRows uid now tagF db ↔
      p.1 ∈ db.cards ∧ p.1.user_id = uid
      ∧ (∃ r, findReview db p.1.id = some r ∧ r.fsrs = p.2)
      ∧ p.2.due ≤ now ∧ tagFilterOk uid tagF p.1.id db = true := by
  simp only [dueRows, List.mem_filterMap]
  constructor
  · rintro ⟨c, hc, hfc⟩
    split at hfc
    next r hr =>
      split at hfc
      next hcond =>
        injection hfc with hfc
        subst hfc
        rw [Bool.and_eq_true, Bool.and_eq_true] at hcond
        refine ⟨hc, ?_, ⟨r, hr, rfl⟩, ?_, hcond.2⟩
        · exact beq_iff_eq.mp hcond.1.1
        · exact of_decide_eq_true hcond.1.2
      next => cases hfc
    next => cases hfc
  · rintro ⟨hc, huid, ⟨r, hr, hfsrs⟩, hdue, htag⟩
    refine ⟨p.1, hc, ?_⟩
    have hcond : (p.1.user_id == uid && decide (r.fsrs.due ≤ now)
        && tagFilterOk uid tagF p.1.id db) = true := by
      rw [Bool.and_eq_true, Bool.and_eq_true]
      exact ⟨⟨beq_iff_eq.mpr huid, decide_eq_true (hfsrs ▸ hdue)⟩, htag⟩
    rw [hr]
    dsimp only
    rw [if_pos hcond, hfsrs]

/-- Every row of `getAllCards`' query is a card of the tenant. -/
theorem mem_allRows_owner {uid : Tenant} {tagF : List TagLabel} {db : Db}
    {p : CardRow × FsrsFields} (hp : p ∈ allRows uid tagF db) :
    p.1 ∈ db.cards ∧ p.1.user_id = uid := by
  simp only [allRows, List.mem_filterMap] at hp
  obtain ⟨c, hc, hfc⟩ := hp
  split at hfc
  next r hr =>
    split at hfc
    next hcond =>
      injection hfc with hfc
      subst hfc
      rw [Bool.and_eq_true] at hcond
      exact ⟨hc, beq_iff_eq.mp hcond.1⟩
    next => cases hfc
  next => cases hfc

/-- Every row of `searchCards`' query is a card of the tenant. -/
theorem mem_searchRows_owner {fts : String → String → Bool} {uid : Tenant}
    {query : String} {tagF : List TagLabel} {db : Db}
    {p : CardRow × FsrsFields} (hp : p ∈ searchRows fts uid query tagF db) :
    p.1 ∈ db.cards ∧ p.1.user_id = uid := by
  simp only [searchRows, List.mem_filterMap] at hp
  obtain ⟨c, hc, hfc⟩ := hp
  split at hfc
  next r hr =>
    split at hfc
    next hcond =>
      injection hfc with hfc
      subst hfc
      rw [Bool.and_eq_true, Bool.and_eq_true] at hcond
      exact ⟨hc, beq_iff_eq.mp hcond.1.2⟩
    next => cases hfc
  next => cases hfc

/-- The ranked due list is a sublist of the full sorted due list. -/
theorem ranked_sublist (S : Scheduler) (uid : Tenant) (now : Int)
    (limit : Option Nat) (tagF : List TagLabel) (db : Db) :
    (getDueCardsRanked S uid now limit tagF db).Sublist
      (List.insertionSort (retrDesc S now) (dueRows uid now tagF db)) := by
  rw [getDueCardsRanked.eq_def]
  match limit with
  | none => exact List.Sublist.refl _
  | some n =>
    dsimp only
    split
    · exact List.Sublist.refl _
    · exact List.take_sublist _ _

/-- Every card returned by `getDueCards` is a card of the tenant. -/
theorem mem_getDueCards_owner {S : Scheduler} {uid : Tenant} {now : Int}
    {limit : Option Nat} {tagF : List TagLabel} {db : Db} {x : CardData}
    (hx : x ∈ getDueCards S uid now limit tagF db) :
    ∃ c ∈ db.cards, c.id = x.id ∧ c.user_id = uid := by
  rw [getDueCards, List.mem_map] at hx
  obtain ⟨p, hp, hfmt⟩ := hx
  have hp2 := (List.mem_insertionSort (retrDesc S now)).mp
    ((ranked_sublist S uid now limit tagF db).mem hp)
  obtain ⟨hc, huid, -, -, -⟩ := mem_dueRows.mp hp2
  exact ⟨p.1, hc, by rw [← hfmt]; rfl, huid⟩

/-- Every card returned by `getAllCards` is a card of the tenant. -/
theorem mem_getAllCards_owner {uid : Tenant} {now : Int} {tagF : List TagLabel}
    {db : Db} {x : CardData} (hx : x ∈ getAllCards uid now tagF db) :
    ∃ c ∈ db.cards, c.id = x.id ∧ c.user_id = uid := by
  rw [getAllCards, List.mem_map] at hx
  obtain ⟨p, hp, hfmt⟩ := hx
  obtain ⟨hc, huid⟩ := mem_allRows_owner ((List.mem_insertionSort createdDesc).mp hp)
  exact ⟨p.1, hc, by rw [← hfmt]; rfl, huid⟩

/-- Every card returned by `searchCards` is a card of the tenant. -/
theorem mem_searchCards_owner {fts : String → String → Bool} {uid : Tenant}
    {now : Int} {query : String} {tagF : List TagLabel} {db : Db} {x : CardData}
    (hx : x ∈ searchCards fts uid now query tagF db) :
    ∃ c ∈ db.cards, c.id = x.id ∧ c.user_id = uid := by
  rw [searchCards, List.mem_map] at hx
  obtain ⟨p, hp, hfmt⟩ := hx
  obtain ⟨hc, huid⟩ := mem_searchRows_owner ((List.mem_insertionSort createdDesc).mp hp)
  exact ⟨p.1, hc, by rw [← hfmt]; rfl, huid⟩

/-- editCard on a missing (tenant, card) pair: false and no change. -/
theorem editCard_not_found {uid : Tenant} {cid : CardId} {db : Db}
    (habs : ∀ c ∈ db.cards, ¬(c.id = cid ∧ c.user_id = uid))
    (instr : Option String) (ts : Option (List TagLabel)) :
    editCard uid cid instr ts db = (false, db) := by
  rw [editCard.eq_def, cards_any_eq_false.mpr habs]
  rfl

/-- deleteCard on a missing (tenant, card) pair: false and no change. -/
theorem deleteCard_not_found {uid : Tenant} {cid : CardId} {db : Db}
    (habs : ∀ c ∈ db.cards, ¬(c.id = cid ∧ c.user_id = uid)) :
    deleteCard uid cid db = (false, db) := by
  rw [deleteCard, cards_any_eq_false.mpr habs]
  rfl

/-- submitReview on a missing (tenant, card) pair: a hard error naming the id. -/
theorem submitReview_not_found {uid : Tenant} {cid : CardId} {db : Db}
    (hwf : db.Wf) (habs : ∀ c ∈ db.cards, ¬(c.id = cid ∧ c.user_id = uid))
    (S : Scheduler) (now : Int) (rating : Nat) :
    submitReview S uid now cid rating db =
      .error ("Card " ++ toString cid ++ " not found") := by
  rw [submitReview, findReviewFor_eq_none hwf habs]

/-- undoReview on a missing (tenant, card) pair: false and no change. -/
theorem undoReview_not_found {uid : Tenant} {cid : CardId} {db : Db}
    (hwf : db.Wf) (habs : ∀ c ∈ db.cards, ¬(c.id = cid ∧ c.user_id = uid)) :
    undoReview uid cid db = (false, db) := by
  have hnone : latestHistory uid cid db = none :=
    latestHistory_eq_none (fun h hh hmatch => by
      obtain ⟨c, hc, h1, h2⟩ := hwf.2.2.2.1 h hh
      exact habs c hc ⟨h1.trans hmatch.1, h2.trans hmatch.2⟩)
  rw [undoReview, hnone]

/-- A successful latest-snapshot scan yields a matching row of the list
(unless it was already the initial accumulator). -/
theorem latestFold_some_inv {uid : Tenant} {cid : CardId} :
    ∀ (l : List HistRow) (init : Option HistRow) (a : HistRow),
      l.foldl (latestStep uid cid) init = some a →
      init = some a ∨ (a ∈ l ∧ a.card_id = cid ∧ a.user_id = uid) := by
  intro l
  induction l with
  | nil => intro init a h; exact Or.inl h
  | cons x xs ih =>
    intro init a h
    rw [List.foldl_cons] at h
    rcases ih (latestStep uid cid init x) a h with hinit | hmem
    · by_cases hx : (x.card_id == cid && x.user_id == uid) = true
      · rw [latestStep.eq_def, if_pos hx] at hinit
        cases init with
        | none =>
          injection hinit with h2
          subst h2
          exact Or.inr ⟨List.mem_cons_self _ _,
            beq_iff_eq.mp ((Bool.and_eq_true _ _).mp hx).1,
            beq_iff_eq.mp ((Bool.and_eq_true _ _).mp hx).2⟩
        | some b =>
          dsimp only at hinit
          split at hinit
          · injection hinit with h2
            subst h2
            exact Or.inr ⟨List.mem_cons_self _ _,
              beq_iff_eq.mp ((Bool.and_eq_true _ _).mp hx).1,
              beq_iff_eq.mp ((Bool.and_eq_true _ _).mp hx).2⟩
          · exact Or.inl hinit
      · have hxp : ¬(x.card_id = cid ∧ x.user_id = uid) := by
          intro hm
          exact hx (by simp [hm.1, hm.2])
        rw [latestStep_skip hxp] at hinit
        exact Or.inl hinit
    · exact Or.inr ⟨List.mem_cons_of_mem _ hmem.1, hmem.2⟩

/-- A matching snapshot appended after all others, at a creation time at least
as late as every earlier row, is the one the scan returns. -/
theorem latestFold_append {uid : Tenant} {cid : CardId} (l : List HistRow)
    (H : HistRow) (hH1 : H.card_id = cid) (hH2 : H.user_id = uid)
    (hple : ∀ h2 ∈ l, h2.created_at ≤ H.created_at) :
    (l ++ [H]).foldl (latestStep uid cid) none = some H := by
  have hHb : (H.card_id == cid && H.user_id == uid) = true := by simp [hH1, hH2]
  rw [List.foldl_append, List.foldl_cons, List.foldl_nil]
  cases hacc : l.foldl (latestStep uid cid) none with
  | none => rw [latestStep.eq_def, if_pos hHb]
  | some a =>
    rcases latestFold_some_inv l none a hacc with h | ⟨hmem, -, -⟩
    · cases h
    · rw [latestStep.eq_def, if_pos hHb]
      dsimp only
      rw [if_pos (hple a hmem)]

/-- Writing a new state for a (tenant, card) key and then writing back the
previously stored state is the identity on the reviews table, since the key
identifies a single row. -/
theorem update_update_reviews {uid : Tenant} {cid : CardId} {l : List ReviewRow}
    {r : ReviewRow} (f2 : FsrsFields)
    (hpw : l.Pairwise (fun a b => a.card_id ≠ b.card_id))
    (hr : l.find? (fun x => x.card_id == cid && x.user_id == uid) = some r) :
    (l.map (fun x => if x.card_id == cid && x.user_id == uid
        then { x with fsrs := f2 } else x)).map
      (fun x => if x.card_id == cid && x.user_id == uid
        then { x with fsrs := r.fsrs } else x) = l := by
  have hrmem : r ∈ l := List.mem_of_find?_eq_some hr
  have hrp := List.find?_some hr
  rw [List.map_map]
  apply map_eq_self_of
  intro x hx
  by_cases hxm : (x.card_id == cid && x.user_id == uid) = true
  · have hx1 := beq_iff_eq.mp ((Bool.and_eq_true _ _).mp hxm).1
    have hr1 := beq_iff_eq.mp ((Bool.and_eq_true _ _).mp hrp).1
    have hxr : x = r := pairwise_key_eq ReviewRow.card_id hpw hx hrmem (hx1.trans hr1.symm)
    subst hxr
    simp only [Function.comp_apply, hxm, if_true]
  · simp only [Function.comp_apply, hxm]
    rw [if_neg (by simp [hxm]), if_neg (by simp [hxm])]

/-- submitReview's only error message names the card id and is non-empty. -/
theorem submitReview_error_ne {S : Scheduler} {uid : Tenant} {now : Int}
    {cid : CardId} {rating : Nat} {db : Db} {e : String}
    (h : submitReview S uid now cid rating db = .error e) : e ≠ "" := by
  rw [submitReview.eq_def] at h
  split at h
  · injection h with h2
    subst h2
    intro hcontra
    have hlen := congrArg String.length hcontra
    rw [String.length_append, String.length_append] at hlen
    have h5 : ("Card " : String).length = 5 := rfl
    have h10 : (" not found" : String).length = 10 := rfl
    have h0 : ("" : String).length = 0 := rfl
    omega
  · cases h

/-! ## Claims -/

/-- C1 (amended): `getDueCards` returns exactly the tenant's cards whose current
due timestamp is ≤ now (optionally tag-filtered), ranked by retrievability in
DESCENDING order — for any two returned cards the one with HIGHER retrievability
comes first — with any limit applied only after sorting. -/
theorem c1_dueCards_ranking (S : Scheduler) (uid : Tenant) (now : Int)
    (limit : Option Nat) (tagF : List TagLabel) (db : Db) :
    List.Pairwise (fun a b => S.retr b.2 now ≤ S.retr a.2 now)
      (getDueCardsRanked S uid now limit tagF db)
    ∧ getDueCards S uid now limit tagF db
        = (getDueCardsRanked S uid now limit tagF db).map
            (fun p => formatCardRow uid now db p.1 p.2)
    ∧ (∀ p, p ∈ getDueCardsRanked S uid now none tagF db ↔
        (p.1 ∈ db.cards ∧ p.1.user_id = uid
         ∧ (∃ r, findReview db p.1.id = some r ∧ r.fsrs = p.2)
         ∧ p.2.due ≤ now ∧ tagFilterOk uid tagF p.1.id db = true)) := by
  refine ⟨?_, rfl, ?_⟩
  · have hs : List.Sorted (retrDesc S now)
        (List.insertionSort (retrDesc S now) (dueRows uid now tagF db)) := by
      haveI : IsTotal (CardRow × FsrsFields) (retrDesc S now) :=
        ⟨fun a b => le_total (S.retr b.2 now) (S.retr a.2 now)⟩
      haveI : IsTrans (CardRow × FsrsFields) (retrDesc S now) :=
        ⟨fun a b c h1 h2 => le_trans h2 h1⟩
      exact List.sorted_insertionSort _ _
    exact List.Pairwise.sublist (ranked_sublist S uid now limit tagF db) hs
  · intro p
    have hnone : getDueCardsRanked S uid now none tagF db
        = List.insertionSort (retrDesc S now) (dueRows uid now tagF db) := rfl
    rw [hnone, List.mem_insertionSort]
    exact mem_dueRows

/-- C1 witness: the ranked-rows decomposition of `getDueCards`, instantiated on
a concrete database. -/
theorem c1_witness :
    getDueCards testSched "u" 0 none [] exDb3
      = (getDueCardsRanked testSched "u" 0 none [] exDb3).map
          (fun p => formatCardRow "u" 0 exDb3 p.1 p.2) :=
  (c1_dueCards_ranking testSched "u" 0 none [] exDb3).2.1

/-- C1 counterexample: three past-due cards with retrievabilities 0.9, 0.5, 0.2
are returned highest-retrievability first ([0.9, 0.5, 0.2], ids [1, 2, 3]);
since 0.9 > 0.2 and the 0.9 card comes first, the claimed ascending
(lowest-retrievability-first) order does not hold. -/
theorem c1_counterexample :
    ((getDueCardsRanked testSched "u" 0 none [] exDb3).map (fun p => testSched.retr p.2 0)
      = [mkRat 9 10, mkRat 1 2, mkRat 1 5])
    ∧ ((getDueCards testSched "u" 0 none [] exDb3).map (fun x => x.id) = [1, 2, 3])
    ∧ ¬ (mkRat 9 10 ≤ mkRat 1 5) :=
  ⟨by decide, by decide, by decide⟩

/-- C2: `deleteCard` returns false exactly when the tenant has no card with that
id; on success the card is removed together with its tag rows, its schedule
state and all its history snapshots, and no later `getDueCards` or
`searchCards` call can return the deleted id. -/
theorem c2_deleteCard_cascade (uid : Tenant) (cid : CardId) (db : Db) (hwf : db.Wf) :
    ((deleteCard uid cid db).1 = false ↔
      ∀ c ∈ db.cards, ¬(c.id = cid ∧ c.user_id = uid))
    ∧ ((deleteCard uid cid db).1 = true →
        (∀ c ∈ (deleteCard uid cid db).2.cards, c.id ≠ cid)
        ∧ (∀ t ∈ (deleteCard uid cid db).2.tags, t.card_id ≠ cid)
        ∧ (∀ r ∈ (deleteCard uid cid db).2.reviews, r.card_id ≠ cid)
        ∧ (∀ h ∈ (deleteCard uid cid db).2.review_history, h.card_id ≠ cid)
        ∧ (∀ S now limit tagF x,
            x ∈ getDueCards S uid now limit tagF (deleteCard uid cid db).2 → x.id ≠ cid)
        ∧ (∀ fts now query tagF x,
            x ∈ searchCards fts uid now query tagF (deleteCard uid cid db).2 → x.id ≠ cid)) := by
  by_cases hany : (db.cards.any fun c => c.id == cid && c.user_id == uid) = true
  · obtain ⟨c0, hc0, hc0p⟩ := List.any_eq_true.mp hany
    rw [Bool.and_eq_true, beq_iff_eq, beq_iff_eq] at hc0p
    have hdel1 : (deleteCard uid cid db).1 = true := by rw [deleteCard, if_pos hany]
    have hcards : (deleteCard uid cid db).2.cards
        = db.cards.filter (fun c => !(c.id == cid && c.user_id == uid)) := by
      rw [deleteCard, if_pos hany]
    have htags : (deleteCard uid cid db).2.tags
        = db.tags.filter (fun t => t.card_id != cid) := by
      rw [deleteCard, if_pos hany]
    have hrevs : (deleteCard uid cid db).2.reviews
        = db.reviews.filter (fun r => r.card_id != cid) := by
      rw [deleteCard, if_pos hany]
    have hhist : (deleteCard uid cid db).2.review_history
        = cascadeHistory cid db.review_history := by
      rw [deleteCard, if_pos hany]
    have hcardsgone : ∀ c ∈ (deleteCard uid cid db).2.cards, c.id ≠ cid := by
      rw [hcards]
      intro c hcf hcid
      rw [List.mem_filter] at hcf
      have hcc0 : c = c0 :=
        pairwise_key_eq CardRow.id hwf.1 hcf.1 hc0 (hcid.trans hc0p.1.symm)
      have hp := hcf.2
      rw [hcc0] at hcid hp
      simp [hcid, hc0p.2] at hp
    refine ⟨⟨fun hfalse => absurd (hdel1.symm.trans hfalse) (by decide),
      fun habs => absurd ⟨hc0p.1, hc0p.2⟩ (habs c0 hc0)⟩, fun _ => ?_⟩
    refine ⟨hcardsgone, ?_, ?_, ?_, ?_, ?_⟩
    · rw [htags]
      intro t htf
      have := (List.mem_filter.mp htf).2
      simpa using this
    · rw [hrevs]
      intro r hrf
      have := (List.mem_filter.mp hrf).2
      simpa using this
    · rw [hhist, cascadeHistory]
      intro h hhf
      have := (List.mem_filter.mp hhf).2
      simpa using this
    · intro S now limit tagF x hx hxid
      obtain ⟨c, hcmem, hcidx, -⟩ := mem_getDueCards_owner hx
      exact hcardsgone c hcmem (hcidx.trans hxid)
    · intro fts now query tagF x hx hxid
      obtain ⟨c, hcmem, hcidx, -⟩ := mem_searchCards_owner hx
      exact hcardsgone c hcmem (hcidx.trans hxid)
  · have hanyf : (db.cards.any fun c => c.id == cid && c.user_id == uid) = false := by
      revert hany
      cases db.cards.any fun c => c.id == cid && c.user_id == uid <;> simp
    have habs := cards_any_eq_false.mp hanyf
    have hdel : deleteCard uid cid db = (false, db) := deleteCard_not_found habs
    rw [hdel]
    exact ⟨⟨fun _ => habs, fun _ => rfl⟩, fun htrue => absurd htrue Bool.false_ne_true⟩

/-- C2 witness: in `oneCardDb` tenant "u" does own card 1, so `deleteCard`
does not report false there. -/
theorem c2_witness : ¬ ((deleteCard "u" 1 oneCardDb).1 = false) := by
  intro hf
  exact ((c2_deleteCard_cascade "u" 1 oneCardDb (by decide)).1.mp hf)
    ⟨1, "u", "x", 0⟩ (by decide) (by decide)

/-- C4 (code bug): submitReview's history INSERT and its reviews UPDATE are two
separate auto-committing statements with no enclosing transaction, so stopping
between them is a reachable committed state.  At that point the pre-review
snapshot has been inserted (history grew) while the current state was not
updated (reviews unchanged) — an orphaned snapshot whose corresponding update
never happened, violating the claimed atomicity. -/
theorem c4_snapshot_update_not_atomic :
    (submitReviewInterrupted "u" 7 1 oneCardDb).isSome = true
    ∧ ((submitReviewInterrupted "u" 7 1 oneCardDb).getD oneCardDb).reviews
        = oneCardDb.reviews
    ∧ ((submitReviewInterrupted "u" 7 1 oneCardDb).getD oneCardDb).review_history
        = oneCardDb.review_history ++ [⟨1, 1, "u", createEmptyCard 0, 7⟩]
    ∧ oneCardDb.review_history = [] := by decide

/-- C5 (code bug): addCard runs the cards INSERT, the tag batch and the reviews
INSERT as separate statements with no transaction.  After step 1 alone — a
reachable committed state if a later statement fails — the card (id 1) exists
with no schedule state, violating the claimed all-or-nothing creation.  A
completed run does produce the initial state (phase New, zeroed fields,
due = now). -/
theorem c5_create_not_atomic :
    ((addCardInsertCard "u" 0 "x" emptyDb).2.cards.map (fun c => c.id)) = [1]
    ∧ findReview (addCardInsertCard "u" 0 "x" emptyDb).2 1 = none
    ∧ (addCard "u" 0 "x" [] emptyDb).2.cards.map (fun c => c.id) = [1]
    ∧ findReview (addCard "u" 0 "x" [] emptyDb).2 1 = some ⟨1, "u", createEmptyCard 0⟩ := by
  decide

/-- C6: tenant isolation.  In a well-formed database, for two distinct tenants A
and B and any card owned by B: A's `getAllCards` never returns that card's id,
and A's `editCard`, `deleteCard`, `submitReview` and `undoReview` on that id all
fail (false or a not-found error) and leave the database unchanged. -/
theorem c6_tenant_isolation (A B : Tenant) (db : Db) (hwf : db.Wf)
    (hAB : A ≠ B) (c : CardRow) (hc : c ∈ db.cards) (hB : c.user_id = B) :
    (∀ now tagF x, x ∈ getAllCards A now tagF db → x.id ≠ c.id)
    ∧ (∀ instr ts, editCard A c.id instr ts db = (false, db))
    ∧ deleteCard A c.id db = (false, db)
    ∧ (∀ S now rating, submitReview S A now c.id rating db =
        .error ("Card " ++ toString c.id ++ " not found"))
    ∧ undoReview A c.id db = (false, db) := by
  have habs : ∀ c2 ∈ db.cards, ¬(c2.id = c.id ∧ c2.user_id = A) := by
    rintro c2 hc2 ⟨h1, h2⟩
    have hcc : c2 = c := pairwise_key_eq CardRow.id hwf.1 hc2 hc h1
    exact hAB ((hcc ▸ h2).symm.trans hB)
  refine ⟨?_, editCard_not_found habs, deleteCard_not_found habs,
    submitReview_not_found hwf habs, undoReview_not_found hwf habs⟩
  intro now tagF x hx hxid
  obtain ⟨c2, hc2, hid, huser⟩ := mem_getAllCards_owner hx
  exact habs c2 hc2 ⟨hid.trans hxid, huser⟩

/-- C6 witness: with tenants "a" and "b" each owning one card, tenant "a"
cannot see, edit, delete, review or undo-review tenant "b"'s card (id 2). -/
theorem c6_witness :
    getAllCards "a" 0 [] twoTenantDb = [⟨1, "s", [], DueLabel.today⟩]
    ∧ editCard "a" 2 (some "y") none twoTenantDb = (false, twoTenantDb)
    ∧ deleteCard "a" 2 twoTenantDb = (false, twoTenantDb)
    ∧ submitReview testSched "a" 0 2 3 twoTenantDb =
        .error ("Card " ++ toString 2 ++ " not found")
    ∧ undoReview "a" 2 twoTenantDb = (false, twoTenantDb) := by
  have h := c6_tenant_isolation "a" "b" twoTenantDb (by decide) (by decide)
    ⟨2, "b", "s", 0⟩ (by decide) rfl
  exact ⟨by decide, h.2.1 (some "y") none, h.2.2.1, h.2.2.2.1 testSched 0 3, h.2.2.2.2⟩

/-- C7: not-found reporting.  On a (tenant, cardId) pair that does not exist,
`editCard`, `deleteCard` and `undoReview` return false as a normal result and
change nothing, while `submitReview` fails hard with an error message that
identifies the card id and never returns a normal result. -/
theorem c7_not_found_semantics (uid : Tenant) (cid : CardId) (db : Db)
    (hwf : db.Wf) (habs : ∀ c ∈ db.cards, ¬(c.id = cid ∧ c.user_id = uid)) :
    (∀ instr ts, editCard uid cid instr ts db = (false, db))
    ∧ deleteCard uid cid db = (false, db)
    ∧ undoReview uid cid db = (false, db)
    ∧ (∀ S now rating, submitReview S uid now cid rating db =
        .error ("Card " ++ toString cid ++ " not found")) :=
  ⟨editCard_not_found habs, deleteCard_not_found habs,
   undoReview_not_found hwf habs, fun S now rating =>
     submitReview_not_found hwf habs S now rating⟩

/-- C3 (amended): for an existing card, a review followed immediately by an
undo restores the whole reviews table — in particular the card's schedule
state, every field included — and the history log, exactly as before the
review; a second consecutive undo then returns false PROVIDED the card had no
earlier history snapshots (otherwise it undoes the previous review and
returns true). -/
theorem c3_review_undo_roundtrip (S : Scheduler) (uid : Tenant) (now : Int)
    (cid : CardId) (rating : Nat) (db : Db) (res : ReviewResult) (db1 : Db)
    (hwf : db.Wf) (r : ReviewRow) (hr : findReviewFor db uid cid = some r)
    (hnow : ∀ h ∈ db.review_history, h.created_at ≤ now)
    (hsub : submitReview S uid now cid rating db = .ok (res, db1)) :
    (undoReview uid cid db1).1 = true
    ∧ (undoReview uid cid db1).2.reviews = db.reviews
    ∧ (undoReview uid cid db1).2.review_history = db.review_history
    ∧ findReviewFor (undoReview uid cid db1).2 uid cid = some r
    ∧ ((∀ h ∈ db.review_history, ¬(h.card_id = cid ∧ h.user_id = uid)) →
        (undoReview uid cid (undoReview uid cid db1).2).1 = false) := by
  have hsub2 : submitReview S uid now cid rating db
      = .ok ({ next_review := (S.next r.fsrs now rating).due,
               interval := jsRoundDiv ((S.next r.fsrs now rating).due - now) msPerDay },
             updateReviewRow uid cid (S.next r.fsrs now rating)
               (insertHistory uid cid now r.fsrs db)) := by
    rw [submitReview, hr]
  rw [hsub2] at hsub
  injection hsub with hpair
  have hdb1 : updateReviewRow uid cid (S.next r.fsrs now rating)
      (insertHistory uid cid now r.fsrs db) = db1 := congrArg Prod.snd hpair
  subst hdb1
  have hlatest : latestHistory uid cid
      (updateReviewRow uid cid (S.next r.fsrs now rating)
        (insertHistory uid cid now r.fsrs db))
      = some (⟨db.nextHistId, cid, uid, r.fsrs, now⟩ : HistRow) := by
    show (db.review_history ++ ([⟨db.nextHistId, cid, uid, r.fsrs, now⟩] : List HistRow)).foldl
      (latestStep uid cid) none = _
    exact latestFold_append _ _ rfl rfl (fun h2 hh => hnow h2 hh)
  have hundo : undoReview uid cid
      (updateReviewRow uid cid (S.next r.fsrs now rating)
        (insertHistory uid cid now r.fsrs db))
      = (true,
        { updateReviewRow uid cid r.fsrs
            (updateReviewRow uid cid (S.next r.fsrs now rating)
              (insertHistory uid cid now r.fsrs db)) with
          review_history :=
            (db.review_history ++ ([⟨db.nextHistId, cid, uid, r.fsrs, now⟩] : List HistRow)).filter
              (fun x => x.id != db.nextHistId) }) := by
    rw [undoReview, hlatest]
    dsimp only
    rfl
  have hrevs : (undoReview uid cid
      (updateReviewRow uid cid (S.next r.fsrs now rating)
        (insertHistory uid cid now r.fsrs db))).2.reviews = db.reviews := by
    rw [hundo]
    exact update_update_reviews (S.next r.fsrs now rating) hwf.2.1 hr
  have hhist : (undoReview uid cid
      (updateReviewRow uid cid (S.next r.fsrs now rating)
        (insertHistory uid cid now r.fsrs db))).2.review_history
      = db.review_history := by
    rw [hundo]
    show (db.review_history ++ ([⟨db.nextHistId, cid, uid, r.fsrs, now⟩] : List HistRow)).filter
      (fun x => x.id != db.nextHistId) = db.review_history
    rw [List.filter_append]
    have h2 : (([⟨db.nextHistId, cid, uid, r.fsrs, now⟩] : List HistRow) : List HistRow).filter
        (fun x => x.id != db.nextHistId) = [] := by
      simp [List.filter]
    rw [h2, List.append_nil]
    apply List.filter_eq_self.mpr
    intro a ha
    have hlt := hwf.2.2.2.2 a ha
    simp only [bne_iff_ne, ne_eq, decide_eq_true_eq]
    omega
  refine ⟨by rw [hundo], hrevs, hhist, ?_, ?_⟩
  · show (undoReview uid cid _).2.reviews.find? _ = some r
    rw [hrevs]
    exact hr
  · intro habs
    have hn : latestHistory uid cid
        (undoReview uid cid
          (updateReviewRow uid cid (S.next r.fsrs now rating)
            (insertHistory uid cid now r.fsrs db))).2 = none := by
      show ((undoReview uid cid _).2.review_history).foldl (latestStep uid cid) none = none
      rw [hhist]
      exact latestFold_eq_none habs
    rw [undoReview, hn]

/-- C3 witness: in `oneCardDb` (one card, no history), review then undo
restores the original state and a second undo returns false. -/
theorem c3_witness :
    (undoReview "u" 1 c3Db1).1 = true
    ∧ (undoReview "u" 1 c3Db1).2.reviews = oneCardDb.reviews
    ∧ (undoReview "u" 1 c3Db1).2.review_history = oneCardDb.review_history
    ∧ findReviewFor (undoReview "u" 1 c3Db1).2 "u" 1 = some ⟨1, "u", createEmptyCard 0⟩
    ∧ (undoReview "u" 1 (undoReview "u" 1 c3Db1).2).1 = false := by
  have h := c3_review_undo_roundtrip testSched "u" 7 1 3 oneCardDb
    ⟨86400007, 1⟩ c3Db1 (by decide) ⟨1, "u", createEmptyCard 0⟩ (by decide)
    (by decide) (by rfl)
  exact ⟨h.1, h.2.1, h.2.2.1, h.2.2.2.1, h.2.2.2.2 (by decide)⟩

/-- C3 counterexample: for a card that already had one (never undone) history
snapshot, review-then-undo-then-undo succeeds on the second undo as well — it
undoes the previous review — so the claimed unconditional false of the second
consecutive undo does not hold. -/
theorem c3_counterexample :
    ((submitReview testSched "u" 10 1 3 priorHistDb).toOption.map
      (fun p => (undoReview "u" 1 (undoReview "u" 1 p.2).2).1)) = some true := by
  decide

/-- C7 witness: card 9 does not exist for tenant "u" in `oneCardDb`. -/
theorem c7_witness :
    editCard "u" 9 none none oneCardDb = (false, oneCardDb)
    ∧ deleteCard "u" 9 oneCardDb = (false, oneCardDb)
    ∧ undoReview "u" 9 oneCardDb = (false, oneCardDb)
    ∧ submitReview testSched "u" 0 9 3 oneCardDb =
        .error ("Card " ++ toString 9 ++ " not found") := by
  have h := c7_not_found_semantics "u" 9 oneCardDb (by decide) (by decide)
  exact ⟨h.1 none none, h.2.1, h.2.2.1, h.2.2.2 testSched 0 3⟩

/-- C8: every batch operation (review, delete, edit, undo, search) processes
its items independently: the identifiers of the successful and the failed lists
together are a permutation of the input identifiers — each input item lands in
exactly one of the two always-present lists, and one item's failure never
prevents the processing of any other — and every failure carries a non-empty
per-item error text. -/
theorem c8_batch_isolation :
    (∀ (S : Scheduler) (uid : Tenant) (now : Int) (l : List BatchReviewInput) (db : Db),
      (((submitBatchReviews S uid now l db).1.map (fun s => s.card_id) ++
        (submitBatchReviews S uid now l db).2.1.map (fun f => f.card_id)).Perm
        (l.map (fun i => i.card_id)))
      ∧ ∀ f ∈ (submitBatchReviews S uid now l db).2.1, f.error ≠ "")
    ∧ (∀ (uid : Tenant) (l : List CardId) (db : Db),
      (((deleteCardsInBatch uid l db).1 ++
        (deleteCardsInBatch uid l db).2.1.map (fun f => f.card_id)).Perm l)
      ∧ ∀ f ∈ (deleteCardsInBatch uid l db).2.1, f.error ≠ "")
    ∧ (∀ (uid : Tenant) (l : List BatchEditInput) (db : Db),
      (((editCardsInBatch uid l db).1 ++
        (editCardsInBatch uid l db).2.1.map (fun f => f.card_id)).Perm
        (l.map (fun e => e.card_id)))
      ∧ ∀ f ∈ (editCardsInBatch uid l db).2.1, f.error ≠ "")
    ∧ (∀ (uid : Tenant) (l : List CardId) (db : Db),
      (((undoReviewsInBatch uid l db).1 ++
        (undoReviewsInBatch uid l db).2.1.map (fun f => f.card_id)).Perm l)
      ∧ ∀ f ∈ (undoReviewsInBatch uid l db).2.1, f.error ≠ "")
    ∧ (∀ (fts : String → String → Bool) (uid : Tenant) (now : Int)
        (l : List BatchSearchInput) (db : Db),
      (((searchCardsInBatch fts uid now l db).1.map (fun s => s.query) ++
        (searchCardsInBatch fts uid now l db).2.map (fun f => f.query)).Perm
        (l.map (fun s => s.query)))
      ∧ ∀ f ∈ (searchCardsInBatch fts uid now l db).2, f.error ≠ "") := by
  refine ⟨?_, ?_, ?_, ?_, ?_⟩
  · intro S uid now l
    induction l with
    | nil =>
      intro db
      exact ⟨List.Perm.refl _, fun f hf => absurd hf (List.not_mem_nil f)⟩
    | cons i rest ih =>
      intro db
      rw [submitBatchReviews]
      cases hs : submitReview S uid now i.card_id i.rating db with
      | ok p =>
        obtain ⟨r, db1⟩ := p
        dsimp only
        constructor
        · rw [List.map_cons, List.cons_append, List.map_cons]
          exact List.Perm.cons _ (ih db1).1
        · exact (ih db1).2
      | error e =>
        dsimp only
        constructor
        · rw [List.map_cons, List.map_cons]
          exact List.Perm.trans List.perm_middle (List.Perm.cons _ (ih db).1)
        · intro f hf
          rcases List.mem_cons.mp hf with rfl | hf2
          · exact submitReview_error_ne hs
          · exact (ih db).2 f hf2
  · intro uid l
    induction l with
    | nil =>
      intro db
      exact ⟨List.Perm.refl _, fun f hf => absurd hf (List.not_mem_nil f)⟩
    | cons cid rest ih =>
      intro db
      rw [deleteCardsInBatch]
      by_cases hb : (deleteCard uid cid db).1 = true
      · rw [if_pos hb]
        dsimp only
        constructor
        · rw [List.cons_append]
          exact List.Perm.cons _ (ih _).1
        · exact (ih _).2
      · rw [if_neg hb]
        dsimp only
        constructor
        · rw [List.map_cons]
          exact List.Perm.trans List.perm_middle (List.Perm.cons _ (ih _).1)
        · intro f hf
          rcases List.mem_cons.mp hf with rfl | hf2
          · exact (by decide : ("Card not found" : String) ≠ "")
          · exact (ih _).2 f hf2
  · intro uid l
    induction l with
    | nil =>
      intro db
      exact ⟨List.Perm.refl _, fun f hf => absurd hf (List.not_mem_nil f)⟩
    | cons e rest ih =>
      intro db
      rw [editCardsInBatch]
      by_cases hb : (editCard uid e.card_id e.instructions e.tags db).1 = true
      · rw [if_pos hb]
        dsimp only
        constructor
        · rw [List.map_cons, List.cons_append]
          exact List.Perm.cons _ (ih _).1
        · exact (ih _).2
      · rw [if_neg hb]
        dsimp only
        constructor
        · rw [List.map_cons, List.map_cons]
          exact List.Perm.trans List.perm_middle (List.Perm.cons _ (ih _).1)
        · intro f hf
          rcases List.mem_cons.mp hf with rfl | hf2
          · exact (by decide : ("Card not found" : String) ≠ "")
          · exact (ih _).2 f hf2
  · intro uid l
    induction l with
    | nil =>
      intro db
      exact ⟨List.Perm.refl _, fun f hf => absurd hf (List.not_mem_nil f)⟩
    | cons cid rest ih =>
      intro db
      rw [undoReviewsInBatch]
      by_cases hb : (undoReview uid cid db).1 = true
      · rw [if_pos hb]
        dsimp only
        constructor
        · rw [List.cons_append]
          exact List.Perm.cons _ (ih _).1
        · exact (ih _).2
      · rw [if_neg hb]
        dsimp only
        constructor
        · rw [List.map_cons]
          exact List.Perm.trans List.perm_middle (List.Perm.cons _ (ih _).1)
        · intro f hf
          rcases List.mem_cons.mp hf with rfl | hf2
          · exact (by decide : ("No review history found" : String) ≠ "")
          · exact (ih _).2 f hf2
  · intro fts uid now l
    induction l with
    | nil =>
      intro db
      exact ⟨List.Perm.refl _, fun f hf => absurd hf (List.not_mem_nil f)⟩
    | cons s rest ih =>
      intro db
      rw [searchCardsInBatch]
      dsimp only
      constructor
      · rw [List.map_cons, List.cons_append, List.map_cons]
        exact List.Perm.cons _ (ih db).1
      · exact (ih db).2

theorem streakLoop_acc (l : List Int) :
    ∀ (e : Int) (a : Nat), streakLoop l e a = a + streakLoop l e 0 := by
  induction l with
  | nil => intro e a; simp [streakLoop]
  | cons d rest ih =>
    intro e a
    by_cases hd : d = e
    · rw [streakLoop, if_pos hd, streakLoop, if_pos hd, ih (e - 1) (a + 1), ih (e - 1) 1]
      omega
    · rw [streakLoop, if_neg hd, streakLoop, if_neg hd]
      omega

theorem backRun_zero (e : Int) : backRun e 0 = [] := rfl

theorem backRun_succ (e : Int) (n : Nat) :
    backRun e (n + 1) = e :: backRun (e - 1) n := rfl

/-- The streak loop counts exactly the longest run e, e-1, e-2, ... at the head
of the date list. -/
theorem streakLoop_take (l : List Int) :
    ∀ e : Int, l.take (streakLoop l e 0) = backRun e (streakLoop l e 0) := by
  induction l with
  | nil => intro e; simp [streakLoop, backRun]
  | cons d rest ih =>
    intro e
    by_cases hd : d = e
    · have h1 : streakLoop (d :: rest) e 0 = streakLoop rest (e - 1) 0 + 1 := by
        rw [streakLoop, if_pos hd, streakLoop_acc]
        omega
      rw [h1, List.take_succ_cons, backRun_succ, ih (e - 1), hd]
    · rw [streakLoop, if_neg hd]
      exact (backRun_zero e).symm ▸ rfl

/-- The streak loop stops at the first date that is not the expected day. -/
theorem streakLoop_stop (l : List Int) :
    ∀ (e : Int) (x : Int), l.get? (streakLoop l e 0) = some x →
      x ≠ e - (streakLoop l e 0 : Nat) := by
  induction l with
  | nil =>
    intro e x hx
    simp at hx
  | cons d rest ih =>
    intro e x hx
    by_cases hd : d = e
    · have h1 : streakLoop (d :: rest) e 0 = streakLoop rest (e - 1) 0 + 1 := by
        rw [streakLoop, if_pos hd, streakLoop_acc]
        omega
      rw [h1] at hx ⊢
      rw [List.get?_cons_succ] at hx
      have := ih (e - 1) x hx
      push_cast
      push_cast at this
      omega
    · rw [streakLoop, if_neg hd] at hx ⊢
      rw [List.get?_cons_zero] at hx
      injection hx with hx
      subst hx
      simpa using hd

/-- C9 (amended): `getCurrentStreak` walks backward from today (or from
yesterday when today has no entry), counting the run of consecutive snapshot
days and stopping at the first gap; it is 0 when the most recent snapshot day
is neither today nor yesterday.  A tenant with snapshots on days D-2 and D-1
but none on day D therefore has streak 2 on day D (yesterday's activity keeps
the streak alive), not 0. -/
theorem c9_current_streak (dates : List Int) (today : Int) :
    (dates = [] → getCurrentStreak dates today = 0)
    ∧ (∀ d0 rest, dates = d0 :: rest → d0 ≠ today → d0 ≠ today - 1 →
        getCurrentStreak dates today = 0)
    ∧ (∀ d0 rest, dates = d0 :: rest → (d0 = today ∨ d0 = today - 1) →
        (dates.take (getCurrentStreak dates today)
            = backRun d0 (getCurrentStreak dates today)
         ∧ ∀ x, dates.get? (getCurrentStreak dates today) = some x →
             x ≠ d0 - (getCurrentStreak dates today : Nat)))
    ∧ getCurrentStreak [today - 1, today - 2] today = 2 := by
  refine ⟨?_, ?_, ?_, ?_⟩
  · intro h
    rw [h]
    rfl
  · intro d0 rest hd hne1 hne2
    rw [hd, getCurrentStreak, if_pos ⟨hne1, hne2⟩]
  · intro d0 rest hd hor
    have hstart : (if d0 = today then today else today - 1) = d0 := by
      rcases hor with h | h
      · rw [if_pos h, h]
      · have hne : ¬ d0 = today := by
          intro hc
          rw [hc] at h
          omega
        rw [if_neg hne, h]
    have hcond : ¬ (d0 ≠ today ∧ d0 ≠ today - 1) := by
      rcases hor with h | h
      · exact fun hc => hc.1 h
      · exact fun hc => hc.2 h
    have hstreak : getCurrentStreak dates today = streakLoop dates d0 0 := by
      rw [hd, getCurrentStreak, if_neg hcond, hstart]
    rw [hstreak]
    exact ⟨streakLoop_take dates d0, fun x hx => streakLoop_stop dates d0 x hx⟩
  · have h1 : ¬ ((today - 1 : Int) ≠ today ∧ (today - 1 : Int) ≠ today - 1) :=
      fun hc => hc.2 rfl
    have h2 : ¬ (today - 1 : Int) = today := by omega
    rw [getCurrentStreak, if_neg h1, if_neg h2, streakLoop, if_pos rfl,
      streakLoop, if_pos (by omega : (today - 2 : Int) = today - 1 - 1), streakLoop]

/-- C8 witness: a batch delete of [1, 999999] against `oneCardDb` lands each
input id in exactly one of the two result lists. -/
theorem c8_witness :
    ((deleteCardsInBatch "u" [1, 999999] oneCardDb).1 ++
      (deleteCardsInBatch "u" [1, 999999] oneCardDb).2.1.map (fun f => f.card_id)).Perm
      [1, 999999] :=
  (c8_batch_isolation.2.1 "u" [1, 999999] oneCardDb).1

/-- C9 witness: with snapshot days [7, 6] queried on day 9 the streak is 0
(most recent activity is neither day 9 nor day 8); with days [4, 3] queried on
day 5 the counted run starts at day 4 (= yesterday). -/
theorem c9_witness :
    getCurrentStreak [7, 6] 9 = 0
    ∧ ([4, 3] : List Int).take (getCurrentStreak [4, 3] 5)
        = backRun 4 (getCurrentStreak [4, 3] 5) := by
  have h1 := c9_current_streak [7, 6] 9
  have h2 := c9_current_streak [4, 3] 5
  exact ⟨h1.2.1 7 [6] rfl (by decide) (by decide),
    (h2.2.2.1 4 [3] rfl (Or.inr (by decide))).1⟩

/-- C9 counterexample: tenant "u" has history snapshots on calendar days 9 and
8 only; queried on day 10 the current streak is 2, not the claimed 0. -/
theorem c9_counterexample :
    currentStreakOf "u" 10 streakDb = 2 ∧ currentStreakOf "u" 10 streakDb ≠ 0 := by
  decide

theorem dropWhile_dropWhile (p : Char → Bool) (l : List Char) :
    (l.dropWhile p).dropWhile p = l.dropWhile p := by
  induction l with
  | nil => rfl
  | cons x xs ih =>
    by_cases hx : p x = true
    · simp [List.dropWhile_cons, hx, ih]
    · simp [List.dropWhile_cons, hx]

/-- A parenthesized front piece of a list with no leading-p elements has no
leading-p elements either. -/
theorem dropWhile_eq_self_of_front {p : Char → Bool} {X l : List Char}
    (hpre : X <+: l) (hl : l.dropWhile p = l) : X.dropWhile p = X := by
  cases X with
  | nil => rfl
  | cons x xs =>
    obtain ⟨s, hs⟩ := hpre
    have hx : p x = false := by
      by_contra hxc
      rw [Bool.not_eq_false] at hxc
      have hdl : l.dropWhile p = (xs ++ s).dropWhile p := by
        rw [← hs]
        simp [List.dropWhile_cons, hxc]
      have hlen := congrArg List.length (hl.symm.trans hdl)
      have hle : ((xs ++ s).dropWhile p).length ≤ (xs ++ s).length :=
        (List.dropWhile_suffix p).length_le
      rw [← hs] at hlen
      simp [List.length_append] at hlen hle
      omega
    simp [List.dropWhile_cons, hx]

/-- The trimmed string has no leading whitespace. -/
theorem jsTrim_no_leading (s : TagLabel) : (jsTrim s).dropWhile isWs = jsTrim s := by
  have h1 : (s.dropWhile isWs).dropWhile isWs = s.dropWhile isWs :=
    dropWhile_dropWhile isWs s
  have hsuf : (s.dropWhile isWs).reverse.dropWhile isWs <:+ (s.dropWhile isWs).reverse :=
    List.dropWhile_suffix _
  have hpre : jsTrim s <+: s.dropWhile isWs := by
    rw [jsTrim]
    exact List.reverse_suffix.mp (by rw [List.reverse_reverse]; exact hsuf)
  exact dropWhile_eq_self_of_front hpre h1

/-- JS trim is idempotent. -/
theorem jsTrim_idem (s : TagLabel) : jsTrim (jsTrim s) = jsTrim s := by
  have h1 := jsTrim_no_leading s
  have h2 : (jsTrim s).reverse.dropWhile isWs = (jsTrim s).reverse := by
    have hrev : (jsTrim s).reverse = (s.dropWhile isWs).reverse.dropWhile isWs := by
      rw [jsTrim, List.reverse_reverse]
    rw [hrev]
    exact dropWhile_dropWhile isWs _
  show (((jsTrim s).dropWhile isWs).reverse.dropWhile isWs).reverse = jsTrim s
  rw [h1, h2, List.reverse_reverse]

theorem goodTag_jsTrim {t : TagLabel} (h : (jsTrim t).isEmpty = false) :
    goodTag (jsTrim t) := by
  constructor
  · intro hc
    rw [hc] at h
    exact absurd h (by decide)
  · exact jsTrim_idem t

theorem tagInv_of_subtags {db db2 : Db} (hinv : TagInv db)
    (hsub : ∀ tr ∈ db2.tags, tr ∈ db.tags) : TagInv db2 :=
  fun tr htr => hinv tr (hsub tr htr)

/-- The tag-insert pipeline (trim, drop empties) preserves the invariant. -/
theorem insertTags_tagInv {uid : Tenant} {cid : CardId} {ts : List TagLabel}
    {db : Db} (hinv : TagInv db) : TagInv (insertTags uid cid ts db) := by
  intro tr htr
  have htr2 : tr ∈ db.tags ++ ((ts.filter (fun t => !(jsTrim t).isEmpty)).map
      (fun t => (⟨cid, uid, jsTrim t⟩ : TagRow))) := htr
  rcases List.mem_append.mp htr2 with h | h
  · exact hinv tr h
  · rw [List.mem_map] at h
    obtain ⟨t, ht, htr3⟩ := h
    have hf := (List.mem_filter.mp ht).2
    rw [← htr3]
    apply goodTag_jsTrim
    rwa [Bool.not_eq_true'] at hf

/-- C10: every operation that writes tags (addCard, editCard — deleteCard only
removes rows) trims each supplied tag and silently drops empty or
whitespace-only tags, so the invariant that every stored tag label is non-empty
and carries no boundary whitespace is preserved; addCard's inserted rows are
exactly the trimmed non-empty tags for the new card. -/
theorem c10_tag_trim_invariant (uid : Tenant) (db : Db) (hinv : TagInv db) :
    (∀ now instr ts, TagInv (addCard uid now instr ts db).2
      ∧ (addCard uid now instr ts db).2.tags = db.tags ++
          ((ts.filter (fun t => !(jsTrim t).isEmpty)).map
            (fun t => ⟨(addCard uid now instr ts db).1, uid, jsTrim t⟩)))
    ∧ (∀ cid instr ts, TagInv (editCard uid cid instr ts db).2)
    ∧ (∀ cid, TagInv (deleteCard uid cid db).2) := by
  refine ⟨?_, ?_, ?_⟩
  · intro now instr ts
    constructor
    · have hinv1 : TagInv (addCardInsertCard uid now instr db).2 :=
        fun tr htr => hinv tr htr
      have h2 := @insertTags_tagInv uid (addCardInsertCard uid now instr db).1 ts _ hinv1
      exact fun tr htr => h2 tr htr
    · rfl
  · intro cid instr ts
    rw [editCard.eq_def]
    split
    · cases instr with
      | none =>
        cases ts with
        | none => exact fun tr htr => hinv tr htr
        | some l =>
          dsimp only
          exact insertTags_tagInv (tagInv_of_subtags hinv
            (fun tr htr => (List.mem_filter.mp htr).1))
      | some s =>
        cases ts with
        | none => exact fun tr htr => hinv tr htr
        | some l =>
          dsimp only
          exact insertTags_tagInv (tagInv_of_subtags hinv
            (fun tr htr => (List.mem_filter.mp htr).1))
    · exact fun tr htr => hinv tr htr
  · intro cid
    rw [deleteCard]
    split
    · exact fun tr htr => hinv tr (List.mem_filter.mp htr).1
    · exact fun tr htr => hinv tr htr

/-- C10 witness: adding a card with tags [" a ", " "] stores exactly one tag,
"a" — trimmed, the whitespace-only tag dropped. -/
theorem c10_witness :
    (addCard "u" 0 "x" [[' ', 'a', ' '], [' ']] emptyDb).2.tags
      = [⟨1, "u", ['a']⟩] := by
  have h := ((c10_tag_trim_invariant "u" emptyDb (by decide)).1 0 "x"
    [[' ', 'a', ' '], [' ']]).2
  rw [h]
  decide

end SpacedMcp
